import Mathlib

/-!
Verification of the post-flow head-pose application core against its
natural-language specification.

The development shallowly embeds the signal-derivation pipeline of the
repository:

* `detect` — the angle decoder of `PoseDetectionService.detect`
  (services/poseDetection): a 16-element row-major facial transformation
  matrix is turned into rounded pitch/yaw/roll/distance values.
* `rawVolume`, `smoothStep`, `updateFrame` — the per-tick volume
  estimation and pose-state merge of `App.tsx` (`updateFrame`).
* `coverCrop` — the object-fit cover crop computation of
  `App.tsx` (`takeScreenshot`).
* `takeScreenshot`, `captureStep` — the capture guard logic around the
  `isCapturing` flag of `App.tsx`.

Machine floats are modelled by real numbers; the one place where IEEE NaN
matters (the unclamped `Math.asin` argument) is modelled separately with an
`Option ℝ` NaN-tracking value (`asinF`).
-/

namespace PostFlow

open Real

/-- A facial transformation matrix: 16 row-major entries, as delivered by the
face-tracking capability. -/
def FaceMatrix : Type := Fin 16 → ℝ

/-- The pose sample returned by `PoseDetectionService.detect`
(the `HeadPose` fields it actually fills: no volume). -/
structure PoseSample where
  pitch : ℤ
  yaw : ℤ
  roll : ℤ
  distance : ℤ
  deriving DecidableEq

/-- The published pose state (`pose` React state in `App.tsx`): the merge of
the latest pose sample with the latest displayed volume. -/
structure PoseState where
  pitch : ℤ
  yaw : ℤ
  roll : ℤ
  distance : ℤ
  volume : ℤ
  deriving DecidableEq

/-- JavaScript `Math.atan2 (y, x)` over the reals (signed zeros and NaN do not
exist in `ℝ`; on all other inputs this is the IEEE case analysis). -/
noncomputable def atan2 (y x : ℝ) : ℝ :=
  if 0 < x then Real.arctan (y / x)
  else if x < 0 then
    if 0 ≤ y then Real.arctan (y / x) + π else Real.arctan (y / x) - π
  else
    if 0 < y then π / 2 else if y < 0 then -(π / 2) else 0

/-- The detection results object: the (possibly empty) list of facial
transformation matrices delivered by the face landmarker for this frame. -/
structure DetectionResults where
  facialTransformationMatrixes : List FaceMatrix

/-- `PoseDetectionService.detect`: `none` for the argument models an
uninitialised face landmarker (`!this.faceLandmarker`); an empty matrix list
models zero tracked faces.  Otherwise the head matrix `m` is decoded as
pitch = asin(−m[6])·180/π, yaw = atan2(m[2], m[10])·180/π,
roll = atan2(m[4], m[5])·180/π, distance = |m[14]|, each rounded
(JS `Math.round x = ⌊x + 1/2⌋`, which is Mathlib `round`). -/
noncomputable def detect (results : Option DetectionResults) : Option PoseSample :=
  match results with
  | none => none
  | some res =>
    if h : 0 < res.facialTransformationMatrixes.length then
      let matrix := res.facialTransformationMatrixes.get ⟨0, h⟩
      let pitch := Real.arcsin (-(matrix 6)) * (180 / π)
      let yaw := atan2 (matrix 2) (matrix 10) * (180 / π)
      let roll := atan2 (matrix 4) (matrix 5) * (180 / π)
      let distance := |matrix 14|
      some { pitch := round pitch, yaw := round yaw,
             roll := round roll, distance := round distance }
    else none

/-- The identity transformation matrix. -/
def idMatrix : FaceMatrix :=
  fun i => if i = 0 ∨ i = 5 ∨ i = 10 ∨ i = 15 then 1 else 0

/-- C1: whenever the detection results contain a matrix `m` (as head of the
matrix list), `detect` returns the sample with pitch = round(asin(−m[6])·180/π),
yaw = round(atan2(m[2], m[10])·180/π), roll = round(atan2(m[4], m[5])·180/π)
and distance = round(|m[14]|): all four fields rounded to the nearest
integer. -/
theorem detect_decodes_matrix (res : DetectionResults) (m : FaceMatrix)
    (rest : List FaceMatrix) (hm : res.facialTransformationMatrixes = m :: rest) :
    detect (some res) =
      some { pitch := round (Real.arcsin (-(m 6)) * (180 / π)),
             yaw := round (atan2 (m 2) (m 10) * (180 / π)),
             roll := round (atan2 (m 4) (m 5) * (180 / π)),
             distance := round |m 14| } := by
  obtain ⟨l⟩ := res
  cases hm
  simp [detect]

/-- Witness for C1: the theorem applied to the identity matrix as the sole
detection result. -/
theorem detect_decodes_matrix_witness :
    detect (some ⟨[idMatrix]⟩) =
      some { pitch := round (Real.arcsin (-(idMatrix 6)) * (180 / π)),
             yaw := round (atan2 (idMatrix 2) (idMatrix 10) * (180 / π)),
             roll := round (atan2 (idMatrix 4) (idMatrix 5) * (180 / π)),
             distance := round |idMatrix 14| } :=
  detect_decodes_matrix ⟨[idMatrix]⟩ idMatrix [] rfl

/-- Normalisation of one byte sample of the time-domain buffer:
`(dataArray[i] - 128) / 128`. -/
noncomputable def amplitude (b : Fin 256) : ℝ := (((b : ℕ) : ℝ) - 128) / 128

/-- The raw calibrated volume computed from one audio buffer in
`updateFrame`: sum of squared amplitudes, RMS, decibel conversion
(`-100` when the RMS is zero) and the `max 0 (db + 95)` calibration. -/
noncomputable def rawVolume (buf : List (Fin 256)) : ℝ :=
  let sum := (buf.map fun b => amplitude b * amplitude b).sum
  let rms := Real.sqrt (sum / buf.length)
  let db := if 0 < rms then 20 * Real.logb 10 rms else -100
  max 0 (db + 95)

/-- The exponential smoothing line of `updateFrame`:
`(alpha * rawVolume) + ((1 - alpha) * smoothedVolumeRef.current)` with
`alpha = 0.15`. -/
noncomputable def smoothStep (raw smoothedPrev : ℝ) : ℝ :=
  0.15 * raw + (1 - 0.15) * smoothedPrev

/-- One tick of `updateFrame` in `App.tsx`.  Inputs: the previously published
pose state, the persisted smoothed volume (`smoothedVolumeRef`), the pose
sample returned by `detect` this tick (if any), and the audio buffer (if the
analyser capability exists).  Output: the newly published pose state and the
new persisted smoothed volume.  `currentDisplayVolume` starts at `0` and is
only assigned in the analyser branch, exactly as in the source. -/
noncomputable def updateFrame (prev : PoseState) (smoothedPrev : ℝ)
    (poseResult : Option PoseSample) (audio : Option (List (Fin 256))) :
    PoseState × ℝ :=
  let volState :=
    match audio with
    | some buf =>
      let smoothed := smoothStep (rawVolume buf) smoothedPrev
      ((round smoothed : ℤ), smoothed)
    | none => ((0 : ℤ), smoothedPrev)
  match poseResult with
  | some r =>
    ({ pitch := r.pitch, yaw := r.yaw, roll := r.roll, distance := r.distance,
       volume := volState.1 }, volState.2)
  | none =>
    ({ prev with volume := volState.1 }, volState.2)

/-- Counterexample for C3: on a tick with no analyser, the published volume is
`0`, not the previous state's volume `5` — the carry-over the claim asserts
does not happen. -/
theorem no_audio_volume_not_carried :
    (updateFrame ⟨0, 0, 0, 0, 5⟩ 33 none none).1.volume ≠
      (⟨0, 0, 0, 0, 5⟩ : PoseState).volume := by
  norm_num [updateFrame]

/-- C3 (amended): on every tick where the audio-analysis capability is absent,
the published volume of the next pose state is `0` (the initial value of
`currentDisplayVolume`), regardless of the previous state and of whether a
fresh pose sample arrived; the persisted smoothed volume is left unchanged. -/
theorem no_audio_volume_zero (prev : PoseState) (smoothedPrev : ℝ)
    (poseResult : Option PoseSample) :
    (updateFrame prev smoothedPrev poseResult none).1.volume = 0 ∧
      (updateFrame prev smoothedPrev poseResult none).2 = smoothedPrev := by
  cases poseResult <;> simp [updateFrame]

/-- The smoothed volume after `n` ticks of feeding the smoothing filter a
constant raw calibrated value of `100`, starting from the initial smoothed
value `0` (`smoothedVolumeRef` starts at `0`). -/
noncomputable def stepResponse : ℕ → ℝ
  | 0 => 0
  | n + 1 => smoothStep 100 (stepResponse n)

/-- C4: starting from smoothed value 0 and feeding raw calibrated value 100
every tick, the smoothed value after `n` ticks is `100 · (1 − 0.85^n)`; and
the per-tick update is exactly `smoothed = 0.15·raw + 0.85·smoothed_prev`. -/
theorem volume_step_response (n : ℕ) :
    stepResponse n = 100 * (1 - 0.85 ^ n) ∧
      ∀ raw prev : ℝ, smoothStep raw prev = 0.15 * raw + 0.85 * prev := by
  constructor
  · induction n with
    | zero => norm_num [stepResponse]
    | succ k ih =>
      rw [stepResponse, smoothStep, ih]
      ring
  · intro raw prev
    rw [smoothStep]
    ring

/-- Each squared normalised amplitude is at most `1`. -/
lemma amplitude_sq_le_one (b : Fin 256) : amplitude b * amplitude b ≤ 1 := by
  have hb : ((b : ℕ) : ℝ) ≤ 255 := by
    have h : (b : ℕ) ≤ 255 := Nat.le_of_lt_succ b.isLt
    exact_mod_cast h
  have h0 : (0 : ℝ) ≤ ((b : ℕ) : ℝ) := Nat.cast_nonneg _
  unfold amplitude
  rw [div_mul_div_comm, div_le_one (by norm_num : (0 : ℝ) < 128 * 128)]
  nlinarith

/-- The sum of squared amplitudes over a buffer is nonnegative. -/
lemma sum_sq_nonneg (buf : List (Fin 256)) :
    0 ≤ (buf.map fun b => amplitude b * amplitude b).sum := by
  induction buf with
  | nil => simp
  | cons a l ih =>
    simp only [List.map_cons, List.sum_cons]
    have := mul_self_nonneg (amplitude a)
    linarith

/-- The sum of squared amplitudes over a buffer is at most its length. -/
lemma sum_sq_le_length (buf : List (Fin 256)) :
    (buf.map fun b => amplitude b * amplitude b).sum ≤ (buf.length : ℝ) := by
  induction buf with
  | nil => simp
  | cons a l ih =>
    simp only [List.map_cons, List.sum_cons, List.length_cons]
    push_cast
    have ha := amplitude_sq_le_one a
    linarith

/-- The raw calibrated volume of any byte buffer lies in `[0, 95]`. -/
lemma rawVolume_bounds (buf : List (Fin 256)) :
    0 ≤ rawVolume buf ∧ rawVolume buf ≤ 95 := by
  refine ⟨le_max_left _ _, ?_⟩
  simp only [rawVolume]
  set sum := (buf.map fun b => amplitude b * amplitude b).sum with hsum
  have hdiv : sum / (buf.length : ℝ) ≤ 1 := by
    rcases Nat.eq_zero_or_pos buf.length with h | h
    · rw [h]
      norm_num
    · rw [div_le_one (by exact_mod_cast h)]
      exact sum_sq_le_length buf
  have hrms0 : 0 ≤ Real.sqrt (sum / (buf.length : ℝ)) := Real.sqrt_nonneg _
  have hrms1 : Real.sqrt (sum / (buf.length : ℝ)) ≤ 1 := Real.sqrt_le_one.mpr hdiv
  apply max_le (by norm_num)
  by_cases hpos : 0 < Real.sqrt (sum / (buf.length : ℝ))
  · rw [if_pos hpos]
    have hlog : Real.logb 10 (Real.sqrt (sum / (buf.length : ℝ))) ≤ 0 :=
      Real.logb_nonpos (by norm_num) hrms0 hrms1
    linarith
  · rw [if_neg hpos]
    norm_num

/-- The exponential moving average keeps values in `[0, 95]`. -/
lemma smoothStep_mem {r s : ℝ} (hr0 : 0 ≤ r) (hr1 : r ≤ 95)
    (hs0 : 0 ≤ s) (hs1 : s ≤ 95) :
    0 ≤ smoothStep r s ∧ smoothStep r s ≤ 95 := by
  unfold smoothStep
  constructor <;> nlinarith

/-- The persisted smoothed volume after processing a sequence of audio
buffers, one per tick, starting from the initial value `0`. -/
noncomputable def volumeTrace (bufs : List (List (Fin 256))) : ℝ :=
  bufs.foldl (fun t buf => smoothStep (rawVolume buf) t) 0

/-- Folding the smoothing filter over any buffer list stays in `[0, 95]`. -/
lemma volumeFold_mem (bufs : List (List (Fin 256))) (s : ℝ)
    (hs0 : 0 ≤ s) (hs1 : s ≤ 95) :
    0 ≤ bufs.foldl (fun t buf => smoothStep (rawVolume buf) t) s ∧
      bufs.foldl (fun t buf => smoothStep (rawVolume buf) t) s ≤ 95 := by
  induction bufs generalizing s with
  | nil => exact ⟨hs0, hs1⟩
  | cons a l ih =>
    simp only [List.foldl_cons]
    have hr := rawVolume_bounds a
    have h := smoothStep_mem hr.1 hr.2 hs0 hs1
    exact ih _ h.1 h.2

/-- C10: starting from the initial smoothed value `0`, for every finite
sequence of non-empty audio buffers of byte samples, the smoothed volume
after each tick lies in `[0, 95]`. -/
theorem volume_invariant (bufs : List (List (Fin 256)))
    (_hne : ∀ b ∈ bufs, b ≠ []) :
    0 ≤ volumeTrace bufs ∧ volumeTrace bufs ≤ 95 :=
  volumeFold_mem bufs 0 le_rfl (by norm_num)

/-- Witness for C10: one tick fed a one-sample silence buffer. -/
theorem volume_invariant_witness :
    0 ≤ volumeTrace [[(128 : Fin 256)]] ∧ volumeTrace [[(128 : Fin 256)]] ≤ 95 :=
  volume_invariant [[(128 : Fin 256)]] (by simp)

/-- The source-space crop rectangle computed in `takeScreenshot`. -/
structure CropRect where
  sx : ℝ
  sy : ℝ
  sWidth : ℝ
  sHeight : ℝ

/-- The object-fit cover crop computation of `takeScreenshot` in `App.tsx`:
`videoRatio = vW / vH`, `screenRatio = tW / tH`; if the source is relatively
wider, keep full height and crop width centred; otherwise keep full width and
crop height centred. -/
noncomputable def coverCrop (vW vH tW tH : ℝ) : CropRect :=
  let videoRatio := vW / vH
  let screenRatio := tW / tH
  if videoRatio > screenRatio then
    { sx := (vW - vH * screenRatio) / 2, sy := 0,
      sWidth := vH * screenRatio, sHeight := vH }
  else
    { sx := 0, sy := (vH - vW / screenRatio) / 2,
      sWidth := vW, sHeight := vW / screenRatio }

/-- C5: for positive source and target dimensions, the cover crop is fully
contained in the source bounds and centre-aligned on both axes. -/
theorem coverCrop_contained (vW vH tW tH : ℝ)
    (_hvW : 0 < vW) (hvH : 0 < vH) (htW : 0 < tW) (htH : 0 < tH) :
    0 ≤ (coverCrop vW vH tW tH).sx ∧
      0 ≤ (coverCrop vW vH tW tH).sy ∧
      (coverCrop vW vH tW tH).sx + (coverCrop vW vH tW tH).sWidth ≤ vW ∧
      (coverCrop vW vH tW tH).sy + (coverCrop vW vH tW tH).sHeight ≤ vH ∧
      (coverCrop vW vH tW tH).sx = (vW - (coverCrop vW vH tW tH).sWidth) / 2 ∧
      (coverCrop vW vH tW tH).sy = (vH - (coverCrop vW vH tW tH).sHeight) / 2 := by
  simp only [coverCrop]
  split_ifs with h
  · have h' : tW * vH < vW * tH := by
      rw [gt_iff_lt, div_lt_div_iff₀ htH hvH] at h
      exact h
    have key : vH * (tW / tH) < vW := by
      rw [← mul_div_assoc, div_lt_iff₀ htH]
      nlinarith
    refine ⟨by linarith, le_refl 0, by linarith, by linarith, rfl, by ring⟩
  · have h' : vW * tH ≤ tW * vH := by
      rw [gt_iff_lt, not_lt, div_le_div_iff₀ hvH htH] at h
      exact h
    have key : vW / (tW / tH) ≤ vH := by
      rw [div_div_eq_mul_div, div_le_iff₀ htW]
      nlinarith
    refine ⟨le_refl 0, by linarith, by linarith, by linarith, by ring, rfl⟩

/-- Witness for C5: source 1920×1080, target 9:16. -/
theorem coverCrop_contained_witness :
    0 ≤ (coverCrop 1920 1080 9 16).sx ∧
      0 ≤ (coverCrop 1920 1080 9 16).sy ∧
      (coverCrop 1920 1080 9 16).sx + (coverCrop 1920 1080 9 16).sWidth ≤ 1920 ∧
      (coverCrop 1920 1080 9 16).sy + (coverCrop 1920 1080 9 16).sHeight ≤ 1080 ∧
      (coverCrop 1920 1080 9 16).sx = (1920 - (coverCrop 1920 1080 9 16).sWidth) / 2 ∧
      (coverCrop 1920 1080 9 16).sy = (1080 - (coverCrop 1920 1080 9 16).sHeight) / 2 :=
  coverCrop_contained 1920 1080 9 16 (by norm_num) (by norm_num) (by norm_num)
    (by norm_num)

/-- C9: the cover crop is scale-invariant — doubling both source dimensions
doubles each field of the crop rectangle. -/
theorem coverCrop_scale_invariant (vW vH tW tH : ℝ) :
    (coverCrop (2 * vW) (2 * vH) tW tH).sx = 2 * (coverCrop vW vH tW tH).sx ∧
      (coverCrop (2 * vW) (2 * vH) tW tH).sy = 2 * (coverCrop vW vH tW tH).sy ∧
      (coverCrop (2 * vW) (2 * vH) tW tH).sWidth =
        2 * (coverCrop vW vH tW tH).sWidth ∧
      (coverCrop (2 * vW) (2 * vH) tW tH).sHeight =
        2 * (coverCrop vW vH tW tH).sHeight := by
  have hr : 2 * vW / (2 * vH) = vW / vH :=
    mul_div_mul_left vW vH (by norm_num : (2 : ℝ) ≠ 0)
  simp only [coverCrop, hr]
  split_ifs with h
  · exact ⟨by ring, by ring, by ring, by ring⟩
  · exact ⟨by ring, by ring, by ring, by ring⟩

/-- The outcome of one `takeScreenshot` call in `App.tsx`. -/
inductive ShotResult
  | rejected
  | failedNoCtx
  | failedEmptyBlob
  | saved
  deriving DecidableEq

/-- The `takeScreenshot` control flow of `App.tsx` around the `isCapturing`
flag.  `if (!videoRef.current || isCapturing) return;` rejects the request;
then `setIsCapturing(true)`; inside the `try`, `if (!ctx) return;` aborts
without touching the flag; in the `toBlob` callback, `if (!blob) return;`
aborts without touching the flag; only at the end of a successful callback is
`setIsCapturing(false)` run.  Returns (new flag value, outcome). -/
def takeScreenshot (isCapturing videoReady ctxOk blobOk : Bool) :
    Bool × ShotResult :=
  if !videoReady || isCapturing then (isCapturing, ShotResult.rejected)
  else if !ctxOk then (true, ShotResult.failedNoCtx)
  else if !blobOk then (true, ShotResult.failedEmptyBlob)
  else (false, ShotResult.saved)

/-- Events of the capture lifecycle: a capture request (with the video-ready
poll result) or the completion of the in-flight composite render. -/
inductive CaptureEvent
  | request (videoReady : Bool)
  | complete

/-- Capture bookkeeping: the `isCapturing` flag and the number of composite
renders currently running. -/
structure CaptureState where
  inFlight : Bool
  activeRenders : ℕ
  deriving DecidableEq

/-- One step of the capture lifecycle: a request while a capture is in flight
(or while the video is not ready) is a no-op — nothing is queued; otherwise a
render starts; completion clears the flag. -/
def captureStep : CaptureState → CaptureEvent → CaptureState
  | s, CaptureEvent.request v =>
    if !v || s.inFlight then s
    else { inFlight := true, activeRenders := s.activeRenders + 1 }
  | s, CaptureEvent.complete =>
    { inFlight := false, activeRenders := s.activeRenders - 1 }

/-- The capture state after a sequence of events, starting idle. -/
def captureTrace (evs : List CaptureEvent) : CaptureState :=
  evs.foldl captureStep ⟨false, 0⟩

/-- `captureStep` preserves the invariant that the number of active renders is
`1` when a capture is in flight and `0` otherwise. -/
lemma captureStep_inv (s : CaptureState) (e : CaptureEvent)
    (h : s.activeRenders = if s.inFlight then 1 else 0) :
    (captureStep s e).activeRenders =
      if (captureStep s e).inFlight then 1 else 0 := by
  cases e with
  | request v => cases v <;> cases hs : s.inFlight <;> simp_all [captureStep]
  | complete => cases hs : s.inFlight <;> simp_all [captureStep]

/-- Folding `captureStep` preserves the render-count invariant. -/
lemma captureFold_inv (evs : List CaptureEvent) (s : CaptureState)
    (h : s.activeRenders = if s.inFlight then 1 else 0) :
    (evs.foldl captureStep s).activeRenders =
      if (evs.foldl captureStep s).inFlight then 1 else 0 := by
  induction evs generalizing s with
  | nil => exact h
  | cons e l ih => exact ih _ (captureStep_inv s e h)

/-- C6: while a capture is in flight, every further capture request is
rejected as a no-op (the state is unchanged, so nothing is queued), and along
every event trace at most one composite render is active at a time. -/
theorem capture_nonreentrant :
    (∀ videoReady ctxOk blobOk : Bool,
        takeScreenshot true videoReady ctxOk blobOk =
          (true, ShotResult.rejected)) ∧
      (∀ s : CaptureState, s.inFlight = true →
        ∀ v, captureStep s (CaptureEvent.request v) = s) ∧
      ∀ evs : List CaptureEvent, (captureTrace evs).activeRenders ≤ 1 := by
  refine ⟨by decide, ?_, ?_⟩
  · intro s hs v
    simp [captureStep, hs]
  · intro evs
    have h := captureFold_inv evs ⟨false, 0⟩ rfl
    rw [captureTrace, h]
    split_ifs <;> norm_num

/-- Witness for C6: a concrete in-flight state and a concrete event trace with
an overlapping second request. -/
theorem capture_nonreentrant_witness :
    takeScreenshot true true true true = (true, ShotResult.rejected) ∧
      captureStep ⟨true, 1⟩ (CaptureEvent.request true) = ⟨true, 1⟩ ∧
      (captureTrace
        [CaptureEvent.request true, CaptureEvent.request true,
         CaptureEvent.complete]).activeRenders ≤ 1 := by
  obtain ⟨h1, h2, h3⟩ := capture_nonreentrant
  exact ⟨h1 true true true, h2 ⟨true, 1⟩ rfl true, h3 _⟩

/-- C7 (code bug): after a failed capture — missing 2D context or empty
`toBlob` buffer — the `isCapturing` flag remains `true` (the early `return`s
skip `setIsCapturing(false)`), so an immediate retry is rejected instead of
possible. -/
theorem capture_flag_stuck_after_failure :
    takeScreenshot false true false true = (true, ShotResult.failedNoCtx) ∧
      takeScreenshot false true true false =
        (true, ShotResult.failedEmptyBlob) ∧
      takeScreenshot true true true true = (true, ShotResult.rejected) := by
  decide

/-- NaN-tracking `Math.asin`: `none` models IEEE NaN, produced exactly when
the argument is outside `[-1, 1]` (the source does not clamp). -/
noncomputable def asinF (x : ℝ) : Option ℝ :=
  if -1 ≤ x ∧ x ≤ 1 then some (Real.arcsin x) else none

/-- Pose sample with a NaN-able pitch channel (the only channel fed through
the unclamped `Math.asin`). -/
structure PoseSampleF where
  pitch : Option ℤ
  yaw : ℤ
  roll : ℤ
  distance : ℤ

/-- Published pose state with a NaN-able pitch channel. -/
structure PoseStateF where
  pitch : Option ℤ
  yaw : ℤ
  roll : ℤ
  distance : ℤ
  volume : ℤ

/-- `PoseDetectionService.detect` with NaN tracking on the pitch channel:
`Math.round (Math.asin (−m[6]) * (180/π))` is NaN whenever the asin argument
is out of domain, and the sample is returned regardless. -/
noncomputable def detectF (matrixes : List FaceMatrix) : Option PoseSampleF :=
  match matrixes with
  | [] => none
  | m :: _ =>
    some { pitch := (asinF (-(m 6))).map fun a => round (a * (180 / π)),
           yaw := round (atan2 (m 2) (m 10) * (180 / π)),
           roll := round (atan2 (m 4) (m 5) * (180 / π)),
           distance := round |m 14| }

/-- The pose-merge of `updateFrame`: a fresh sample replaces all angle fields
of the published state (its fields are spread unconditionally), otherwise the
previous fields are kept; the volume is set either way. -/
def publishF (prev : PoseStateF) (res : Option PoseSampleF) (vol : ℤ) :
    PoseStateF :=
  match res with
  | some r => { pitch := r.pitch, yaw := r.yaw, roll := r.roll,
                distance := r.distance, volume := vol }
  | none => { prev with volume := vol }

/-- A matrix whose asin argument `−m[6] = 2` is outside `[-1, 1]`. -/
def badMatrix : FaceMatrix := fun i => if (i : ℕ) = 6 then -2 else 0

/-- C2 (code bug): with `m[6] = −2` the asin argument is out of domain, the
pitch of the detected sample is NaN, and `updateFrame` publishes that NaN into
the pose state instead of rejecting the sample and carrying over the previous
pitch `7`. -/
theorem nan_propagates_into_pose_state :
    (publishF ⟨some 7, 0, 0, 0, 0⟩ (detectF [badMatrix]) 0).pitch = none ∧
      (publishF ⟨some 7, 0, 0, 0, 0⟩ (detectF [badMatrix]) 0).pitch ≠
        some 7 := by
  have h : (publishF ⟨some 7, 0, 0, 0, 0⟩ (detectF [badMatrix]) 0).pitch = none := by
    norm_num [publishF, detectF, asinF, badMatrix,
      show ((6 : Fin 16) : ℕ) = 6 from rfl]
  refine ⟨h, ?_⟩
  rw [h]
  exact fun hc => Option.noConfusion hc

/-- The two-argument arctangent always lies in `[-π, π]`. -/
lemma abs_atan2_le_pi (y x : ℝ) : |atan2 y x| ≤ π := by
  have hpi : 0 < π := Real.pi_pos
  unfold atan2
  split_ifs with h1 h2 h3 h4 h5
  · have ha1 := Real.neg_pi_div_two_lt_arctan (y / x)
    have ha2 := Real.arctan_lt_pi_div_two (y / x)
    exact abs_le.mpr ⟨by linarith, by linarith⟩
  · have ha1 : Real.arctan (y / x) ≤ 0 := by
      have hz : y / x ≤ 0 := div_nonpos_of_nonneg_of_nonpos h3 h2.le
      exact (Real.arctan_strictMono.monotone hz).trans_eq Real.arctan_zero
    have ha2 := Real.neg_pi_div_two_lt_arctan (y / x)
    exact abs_le.mpr ⟨by linarith, by linarith⟩
  · have ha1 : 0 ≤ Real.arctan (y / x) := by
      have hz : 0 ≤ y / x := div_nonneg_of_nonpos (by linarith) h2.le
      exact Real.arctan_zero ▸ Real.arctan_strictMono.monotone hz
    have ha2 := Real.arctan_lt_pi_div_two (y / x)
    exact abs_le.mpr ⟨by linarith, by linarith⟩
  · exact abs_le.mpr ⟨by linarith, by linarith⟩
  · exact abs_le.mpr ⟨by linarith, by linarith⟩
  · exact abs_le.mpr ⟨by linarith, by linarith⟩

/-- `round` is bounded above by any integer bound on its argument. -/
lemma round_le_int {x : ℝ} {n : ℤ} (h : x ≤ (n : ℝ)) : round x ≤ n := by
  rw [round_eq]
  have h2 : ⌊x + 1 / 2⌋ ≤ ⌊(n : ℝ) + 1 / 2⌋ := Int.floor_le_floor (by linarith)
  rwa [Int.floor_int_add, show ⌊(1 / 2 : ℝ)⌋ = 0 by norm_num, add_zero] at h2

/-- `round` is bounded below by any integer bound on its argument. -/
lemma int_le_round {x : ℝ} {n : ℤ} (h : (n : ℝ) ≤ x) : n ≤ round x := by
  rw [round_eq]
  have h2 : ⌊(n : ℝ) + 1 / 2⌋ ≤ ⌊x + 1 / 2⌋ := Int.floor_le_floor (by linarith)
  rwa [Int.floor_int_add, show ⌊(1 / 2 : ℝ)⌋ = 0 by norm_num, add_zero] at h2

/-- An angle of magnitude at most `π`, converted to degrees, has magnitude at
most `180`. -/
lemma scaled_abs_le {a : ℝ} (h : |a| ≤ π) : |a * (180 / π)| ≤ 180 := by
  have hpi : 0 < π := Real.pi_pos
  rw [abs_mul, abs_of_nonneg (le_of_lt (div_pos (by norm_num) hpi))]
  calc |a| * (180 / π) ≤ π * (180 / π) :=
        mul_le_mul_of_nonneg_right h (by positivity)
    _ = 180 := by field_simp

/-- A real angle of magnitude at most `π`, converted to degrees and rounded,
lies in `[-180, 180]`. -/
lemma round_deg_bounds {a : ℝ} (h : |a| ≤ π) :
    -180 ≤ round (a * (180 / π)) ∧ round (a * (180 / π)) ≤ 180 := by
  have h2 := scaled_abs_le h
  rw [abs_le] at h2
  exact ⟨int_le_round (by push_cast; linarith), round_le_int (by push_cast; linarith)⟩

/-- C8: every pose sample produced by `detect` has pitch, yaw and roll in
`[-180, 180]` and a non-negative distance. -/
theorem detect_output_bounds (results : Option DetectionResults)
    (p : PoseSample) (h : detect results = some p) :
    -180 ≤ p.pitch ∧ p.pitch ≤ 180 ∧ -180 ≤ p.yaw ∧ p.yaw ≤ 180 ∧
      -180 ≤ p.roll ∧ p.roll ≤ 180 ∧ 0 ≤ p.distance := by
  have hpi : 0 < π := Real.pi_pos
  cases results with
  | none => exact absurd h (by simp [detect])
  | some res =>
    simp only [detect] at h
    split at h
    · rw [Option.some_inj] at h
      subst h
      have hpitch : |Real.arcsin (-(res.facialTransformationMatrixes.get
          ⟨0, by assumption⟩ 6))| ≤ π := by
        rw [abs_le]
        constructor
        · have := Real.neg_pi_div_two_le_arcsin
            (-(res.facialTransformationMatrixes.get ⟨0, by assumption⟩ 6))
          linarith
        · have := Real.arcsin_le_pi_div_two
            (-(res.facialTransformationMatrixes.get ⟨0, by assumption⟩ 6))
          linarith
      have hyaw := abs_atan2_le_pi
        (res.facialTransformationMatrixes.get ⟨0, by assumption⟩ 2)
        (res.facialTransformationMatrixes.get ⟨0, by assumption⟩ 10)
      have hroll := abs_atan2_le_pi
        (res.facialTransformationMatrixes.get ⟨0, by assumption⟩ 4)
        (res.facialTransformationMatrixes.get ⟨0, by assumption⟩ 5)
      refine ⟨(round_deg_bounds hpitch).1, (round_deg_bounds hpitch).2,
        (round_deg_bounds hyaw).1, (round_deg_bounds hyaw).2,
        (round_deg_bounds hroll).1, (round_deg_bounds hroll).2, ?_⟩
      exact int_le_round (by push_cast; exact abs_nonneg _)
    · exact absurd h (by simp)

/-- The identity matrix decodes to the all-zero pose sample. -/
lemma detect_idMatrix : detect (some ⟨[idMatrix]⟩) = some ⟨0, 0, 0, 0⟩ := by
  have h2 : idMatrix 2 = 0 := rfl
  have h4 : idMatrix 4 = 0 := rfl
  have h5 : idMatrix 5 = 1 := rfl
  have h6 : idMatrix 6 = 0 := rfl
  have h10 : idMatrix 10 = 1 := rfl
  have h14 : idMatrix 14 = 0 := rfl
  simp [detect, h2, h4, h5, h6, h10, h14, atan2, Real.arctan_zero,
    Real.arcsin_zero]

/-- Witness for C8: the bounds hold for the sample decoded from the identity
matrix. -/
theorem detect_output_bounds_witness :
    -180 ≤ (PoseSample.mk 0 0 0 0).pitch ∧ (PoseSample.mk 0 0 0 0).pitch ≤ 180 ∧
      -180 ≤ (PoseSample.mk 0 0 0 0).yaw ∧ (PoseSample.mk 0 0 0 0).yaw ≤ 180 ∧
      -180 ≤ (PoseSample.mk 0 0 0 0).roll ∧ (PoseSample.mk 0 0 0 0).roll ≤ 180 ∧
      0 ≤ (PoseSample.mk 0 0 0 0).distance :=
  detect_output_bounds (some ⟨[idMatrix]⟩) ⟨0, 0, 0, 0⟩ detect_idMatrix

end PostFlow
